import Mathlib

/-!
Verification of the trealla-prolog/go driver (a Go host embedding the Trealla
Prolog engine compiled to WebAssembly) against its natural-language
specification.  Shallow embedding: guest memory is a list of bytes, Go strings
are lists of characters (UTF-8 is self-synchronizing, so searching/slicing at
the byte positions of ASCII control characters coincides with searching and
slicing at character positions), Go `(T, error)` results are `Option`/`Except`
values, and the stateful query/pool/interpreter code is modelled as explicit
state-passing functions and small-step event semantics.
-/

namespace TreallaSpec

/-! ## Prolog terms (src/trealla/term.go, src/unnamed/part_022)

The Go `Term` is `any` over: `string`, `int64`, big ints/rationals, floats,
`Atom`, `Compound`, `Variable`.  The claims under study only ever build or
inspect atoms, strings, 64-bit integers, compounds and variables, so the
embedding carries those constructors (big numbers, rationals and floats play
no role in any claim and are omitted). -/

inductive Term where
  | atom (a : String)
  | str (s : String)
  | int (n : Int)
  | compound (f : String) (args : List Term)
  | var (name : String)
deriving Repr

/-- `func piTerm(functor Atom, arity int) Compound` (src/trealla/term.go:146):
`Compound{Functor: "/", Args: []Term{functor, int64(arity)}}`. -/
def piTerm (functor : String) (arity : Nat) : Term :=
  .compound "/" [.atom functor, .int arity]

/-- `(a Atom) pi()` and `(c Compound) pi()` (src/trealla/term.go:44,98):
an atom's indicator is `a/0`, a compound's is `f/len(args)`.  The Go sites
using this go through an `atomicTerm` interface assertion, so the other
constructors are unreachable there; the model returns a dummy atom for them. -/
def piOf : Term → Term
  | .atom a => piTerm a 0
  | .compound f args => piTerm f args.length
  | _ => .atom "?"

/-- `goal.(atomicTerm)` succeeds exactly on atoms and compounds
(src/trealla/term.go:150). -/
def isAtomicT : Term → Bool
  | .atom _ => true
  | .compound _ _ => true
  | _ => false

/-- `func throwTerm(ball Term) Compound` (src/trealla/library.go:234-236):
`Compound{Functor: "throw", Args: []Term{ball}}`. -/
def throwTerm (ball : Term) : Term :=
  .compound "throw" [ball]

/-- Recognizer for a `throw/1` compound (the shape the host-call protocol
treats as "raise an exception", src/unnamed/part_002). -/
def isThrow : Term → Bool
  | .compound f args => f = "throw" && args.length = 1
  | _ => false

/-- `func domainError(domain Atom, got Term, ctx Term) Compound`
(src/trealla/library.go:214-216, the wazero-era library in scope for
src/unnamed/part_002): `throwTerm(Atom("error").Of(Atom("domain_error").
Of(domain, got), ctx))` — note the result is already wrapped in `throw/1`. -/
def domainError (domain : String) (got : Term) (ctx : Term) : Term :=
  throwTerm (.compound "error" [.compound "domain_error" [.atom domain, got], ctx])

/-! ## C5: goal escaping (src/unnamed/part_016:513-516,544 and
src/unnamed/part_022:283-284,309)

`strings.NewReplacer` with pairwise-distinct single-character patterns
replaces characters independently, left to right; such a replacer is exactly a
character-wise flat map. -/

/-- A `strings.Replacer` whose patterns are single characters, as a flat map. -/
def replaceChars (table : List (Char × List Char)) (s : List Char) : List Char :=
  s.flatMap fun c =>
    match table.find? (fun p => p.1 = c) with
    | some p => p.2
    | none => [c]

/-- `var queryEscaper = strings.NewReplacer("\t", " ", "\n", " ", "\r", "")`
(src/unnamed/part_016:544). -/
def queryEscaper (s : List Char) : List Char :=
  replaceChars [('\t', [' ']), ('\n', [' ']), ('\r', [])] s

/-- `var stringEscaper = strings.NewReplacer(`\`, `\\`, `"`, `\"`)`
(src/unnamed/part_022:309, the escaper in scope for part_016's package). -/
def stringEscaper (s : List Char) : List Char :=
  replaceChars [('\\', ['\\', '\\']), ('"', ['\\', '"'])] s

/-- `func escapeString(str string) string` (src/unnamed/part_022:283):
`"\"" + stringEscaper.Replace(str) + "\""`. -/
def escapeString (s : List Char) : List Char :=
  '"' :: stringEscaper s ++ ['"']

/-- `func escapeQuery(query string) string` (src/unnamed/part_016:513-516):
`queryEscaper.Replace` then `fmt.Sprintf("wasm:js_ask(%s).", escapeString(query))`. -/
def escapeQuery (s : List Char) : List Char :=
  "wasm:js_ask(".data ++ escapeString (queryEscaper s) ++ ").".data

/-- Spec-side transform, following the words of C5: "replacing every tab and
newline with a space, deleting every carriage return". -/
def specNormalizeChar (c : Char) : List Char :=
  if c = '\t' then [' ']
  else if c = '\n' then [' ']
  else if c = '\r' then []
  else [c]

/-- Spec-side transform, following the words of C5: "backslash-escaping every
backslash and double quote". -/
def specEscapeChar (c : Char) : List Char :=
  if c = '\\' then ['\\', '\\']
  else if c = '"' then ['\\', '"']
  else [c]

/-- Spec-side escaped string E of C5: normalize, escape, then "enclosing the
result in double quotes". -/
def specEscaped (g : List Char) : List Char :=
  '"' :: (g.flatMap specNormalizeChar).flatMap specEscapeChar ++ ['"']

/-! ## C3/C4: answer-envelope parsing (src/trealla/answer.go:28-89)

Strings are lists of characters; `strings.IndexRune` of an ASCII rune over a
UTF-8 string returns the byte offset of the first occurrence, which for the
purposes of splitting corresponds to the character position used here. -/

/-- `const stx = '\x02'` (src/trealla/query.go:12). -/
def stxC : Char := '\x02'

/-- `const etx = '\x03'` (src/trealla/query.go:13). -/
def etxC : Char := '\x03'

/-- Go's `unicode.IsSpace`, i.e. the White_Space runes that
`strings.TrimSpace` strips: U+0009-U+000D, space, U+0085, U+00A0, U+1680,
U+2000-U+200A, U+2028, U+2029, U+202F, U+205F, U+3000. -/
def goIsSpace (c : Char) : Bool :=
  c = ' ' || c = '\t' || c = '\n' || c = '\x0b' || c = '\x0c' || c = '\r' ||
  c = '\x85' || c = '\xa0' || c = '\u1680' ||
  ('\u2000' ≤ c && c ≤ '\u200a') ||
  c = '\u2028' || c = '\u2029' || c = '\u202f' || c = '\u205f' || c = '\u3000'

/-- `len(strings.TrimSpace(stdout)) == 0` (src/trealla/answer.go:30). -/
def trimmedEmpty (s : List Char) : Bool :=
  s.all goIsSpace

/-- `strings.IndexRune`: index of the first occurrence, `-1` when absent. -/
def idxOf (c : Char) : List Char → Int
  | [] => -1
  | x :: rest =>
    if x = c then 0
    else
      let r := idxOf c rest
      if r = -1 then -1 else r + 1

/-- Go string slicing `s[a:b]` (caller must know `a ≤ b ≤ len s`, otherwise
Go panics; `parse` models that panic explicitly). -/
def sl (s : List Char) (a b : Nat) : List Char :=
  (s.take b).drop a

/-- Status strings (src/trealla/answer.go:96-103). -/
def statusSuccess : List Char := "success".data

/-- `statusFailure queryStatus = "failure"` (src/trealla/answer.go:100). -/
def statusFailure : List Char := "failure".data

/-- `statusError queryStatus = "error"` (src/trealla/answer.go:102). -/
def statusError : List Char := "error".data

/-- The decoded JSON envelope (src/trealla/answer.go:22-26): only the
`status` field and whether the `error` field decodes to a term matter to the
claims; the solution substitution is elided. -/
structure Resp where
  status : List Char
  ballOk : Bool

/-- The observable part of `Answer` (src/trealla/answer.go:10-20): original
goal text, captured stdout, captured stderr (the substitution is elided). -/
structure AnswerGo where
  query : List Char
  stdout : List Char
  stderr : List Char
deriving Repr

/-- The error taxonomy of `parse` as tags: `ErrFailure`, the
"invalid query" protocol error, JSON/ball decoding errors, `ErrThrow`, the
"unexpected query status" error, and a Go slice-bounds panic. -/
inductive ParseErr where
  | failure
  | protocol
  | decodeErr
  | throwE
  | unexpectedStatus
  | slicePanic
deriving Repr, DecidableEq

/-- The tail of `parse` from `switch resp.Status` (src/trealla/answer.go:76-89),
including the JSON decode itself (lines 68-72): `none` models a JSON decoding
error; on status `error` a ball that fails to decode surfaces that error. -/
def statusOutcome (r : Option Resp) : Option ParseErr :=
  match r with
  | none => some .decodeErr
  | some resp =>
    if resp.status = statusSuccess then none
    else if resp.status = statusFailure then some .failure
    else if resp.status = statusError then
      (if resp.ballOk then some .throwE else some .decodeErr)
    else some .unexpectedStatus

/-- `Answer{}` — the zero value returned by the early branches of `parse`. -/
def emptyAnswer : AnswerGo := ⟨[], [], []⟩

/-- `func (pl *prolog) parse(goal, stdout, stderr string) (Answer, error)`
(src/trealla/answer.go:28-89).  `dec` abstracts `encoding/json` decoding of
the envelope object.  Mirrors the source line by line: the whitespace-only
early return of `ErrFailure`; `start`/`end` by `IndexRune`; the missing-ETX
protocol error; `nl`/`butt` exactly as written (in particular, when no newline
follows ETX the computed `nl` equals `end`, the `nl >= 0` test still passes,
and the slice `stdout[end+1:butt]` panics in Go — modelled as `slicePanic`,
as is `stdout[start+1:end]` when STX occurs after ETX). -/
def parse (dec : List Char → Option Resp) (goal stdout stderr : List Char) :
    AnswerGo × Option ParseErr :=
  if trimmedEmpty stdout then (emptyAnswer, some .failure)
  else
    let start : Int := idxOf stxC stdout
    let endi : Int := idxOf etxC stdout
    if endi = -1 then (emptyAnswer, some .protocol)
    else
      let e : Nat := endi.toNat
      let nl : Int := idxOf '\n' (stdout.drop (e + 1)) + endi + 1
      let butt : Nat := if 0 ≤ nl then nl.toNat else stdout.length
      let s1 : Nat := (start + 1).toNat
      if s1 > e ∨ butt < e + 1 then (emptyAnswer, some .slicePanic)
      else
        let output := sl stdout s1 e
        let js := sl stdout (e + 1) butt
        (⟨goal, output, stderr⟩, statusOutcome (dec js))

/-! ## C3: the wasmer query iterator's failure reporting
(src/trealla/query.go:58-238 `start`, 240-386 `redo`/`Next`, 472-482
`setError`/`Err`)

Only the fields consulted by `Next`/`Err` on the failure paths are carried:
the error slot, the done flag, and whether an answer is staged (`q.next`). -/

structure WQuery where
  err : Option ParseErr
  done : Bool
  staged : Bool
deriving Repr, DecidableEq

/-- `(q *query) setError` (src/trealla/query.go:472-476): records only the
first error. -/
def setErrorW (q : WQuery) (e : ParseErr) : WQuery :=
  if q.err = none then { q with err := some e } else q

/-- The tail of `(pl *prolog) start` (src/trealla/query.go:176-237): after
`pl_query` returns `ret` (`q.done = ret == 0`) and the captured output is
read, `parse` is called; a nil error stages the answer (`q.push`), any error —
including `ErrFailure` — is recorded via `setError`. -/
def startTail (ret : Bool) (pr : Option ParseErr) : WQuery :=
  let q : WQuery := { err := none, done := ret = false, staged := false }
  match pr with
  | none => { q with staged := true }
  | some e => setErrorW q e

/-- The tail of `(q *query) redo` (src/trealla/query.go:326-382): after
`pl_redo` returns `ret` (`q.done = ret == 0`), the parse result is examined:
`IsFailure(err)` returns false WITHOUT recording an error; other errors are
recorded; success stages the answer and returns true. -/
def redoStep (q : WQuery) (ret : Bool) (pr : Option ParseErr) : WQuery × Bool :=
  let q1 := { q with done := ret = false }
  match pr with
  | some .failure => (q1, false)
  | some e => (setErrorW q1 e, false)
  | none => ({ q1 with staged := true }, true)

/-- `(q *query) Next` (src/trealla/query.go:385-406): error short-circuits;
a staged answer pops; done yields false; otherwise `redo` and pop. -/
def wnext (q : WQuery) (ret : Bool) (pr : Option ParseErr) : WQuery × Bool :=
  if q.err.isSome then (q, false)
  else if q.staged then ({ q with staged := false }, true)
  else if q.done then (q, false)
  else
    let r := redoStep q ret pr
    if r.2 then
      (if r.1.staged then ({ r.1 with staged := false }, true) else (r.1, false))
    else (r.1, false)

/-! ## C1: the wazero query iterator's handle lifecycle
(src/unnamed/part_016: `close` 425-472, `redo` 276-351, `Next` 353-374,
`Close` 411-423, `start` 160-274)

The model tracks the one iterator under study: its subquery handle, flags, and
pending-answer count, plus the interpreter's running registry restricted to
this iterator's handle and a counter of `pl_done` invocations on it.  Answers
are pushed (by the engine, through host calls) during `pl_query`/`pl_redo`;
the events below carry how many arrive, together with `pl_redo`'s return value
and whether the call failed with a host error. -/

structure QueryState where
  subquery : Nat
  done : Bool
  dead : Bool
  answers : Nat
  errSet : Bool
deriving Repr, DecidableEq

structure InterpState where
  running : List Nat
  doneCalls : Nat
deriving Repr, DecidableEq

structure SysState where
  q : QueryState
  pl : InterpState
deriving Repr, DecidableEq

/-- `delete(pl.running, h)`. -/
def eraseRun (pl : InterpState) (h : Nat) : InterpState :=
  { pl with running := pl.running.filter (fun x => x ≠ h) }

/-- `(q *query) close` (src/unnamed/part_016:425-472): on first entry mark
dead (and stop coroutines, modelled separately for C7); always delete the
handle from the running registry; call `pl_done` only when the query is not
yet done and the handle is still held, then mark done and zero the handle. -/
def closeQ (s : SysState) : SysState :=
  let s1 : SysState :=
    if s.q.dead then s else { s with q := { s.q with dead := true } }
  let s2 : SysState :=
    if s1.q.subquery ≠ 0 then { s1 with pl := eraseRun s1.pl s1.q.subquery } else s1
  if s2.q.done = false ∧ s2.q.subquery ≠ 0 then
    { q := { s2.q with done := true, subquery := 0 },
      pl := { s2.pl with doneCalls := s2.pl.doneCalls + 1 } }
  else s2

/-- `(q *query) redo` (src/unnamed/part_016:276-351): `pl_redo` returns
`ret` (answers pushed during the call are appended); `q.done = ret == 0`;
a host error records it and closes; when done, the handle is deleted from the
running registry and `close` runs (deferred); the function returns false only
when an error is set. -/
def redoQ (s : SysState) (ret : Bool) (pushed : Nat) (gerr : Bool) :
    SysState × Bool :=
  let q1 := { s.q with done := !ret, answers := s.q.answers + pushed }
  if gerr then
    (closeQ { s with q := { q1 with errSet := true } }, false)
  else if q1.done then
    (closeQ { q := q1, pl := eraseRun s.pl q1.subquery }, true)
  else
    ({ s with q := q1 }, true)

/-- `(q *query) pop` (src/unnamed/part_016:381-389). -/
def popQ (s : SysState) : SysState × Bool :=
  if s.q.answers = 0 then (s, false)
  else ({ s with q := { s.q with answers := s.q.answers - 1 } }, true)

/-- `(q *query) Next` (src/unnamed/part_016:353-374). -/
def nextQ (s : SysState) (ret : Bool) (pushed : Nat) (gerr : Bool) :
    SysState × Bool :=
  if s.q.errSet then (s, false)
  else
    let p := popQ s
    if p.2 then (p.1, true)
    else if p.1.q.done then (p.1, false)
    else
      let r := redoQ p.1 ret pushed gerr
      if r.2 then popQ r.1 else (r.1, false)

/-- One observable action on the iterator: a `Next` call (with the engine's
`pl_redo` result, the number of answers pushed during it, and whether the
call returned a host error — used only if a redo actually happens), or a
`Close` call. -/
inductive QEvent where
  | next (ret : Bool) (pushed : Nat) (gerr : Bool)
  | close
deriving Repr, DecidableEq

def stepQ (s : SysState) : QEvent → SysState
  | .next r p g => (nextQ s r p g).1
  | .close => closeQ s

def runQ (s : SysState) (evs : List QEvent) : SysState :=
  evs.foldl stepQ s

/-- The state right after `start` succeeded with handle `h` (`pl_query`
returned 1, `pl.running[h] = q`, src/unnamed/part_016:252-262) and `k`
answers staged by the first call. -/
def initQ (h k : Nat) : SysState :=
  ⟨⟨h, false, false, k, false⟩, ⟨[h], 0⟩⟩

/-- Lifecycle invariant for a query started with handle `h`. -/
def InvQ (h : Nat) (s : SysState) : Prop :=
  s.pl.doneCalls ≤ 1 ∧
  (s.q.subquery = h ∨ s.q.subquery = 0) ∧
  (s.q.subquery = 0 → s.q.done = true) ∧
  ((s.q.done = true ∨ s.q.dead = true) → h ∉ s.pl.running) ∧
  (∀ x ∈ s.pl.running, x = h) ∧
  (s.pl.doneCalls = 1 → s.q.done = true)

/-! ## C2: the read-replica pool (src/unnamed/part_021:55-73 `WriteTx`)

Guest memory is a byte list; `become` (src/unnamed/part_024:296-308) grows the
target memory to at least the source's size and byte-copies the source over
its prefix. -/

/-- `(pl *prolog) become(parent)` (src/unnamed/part_024:296-308): grow to the
parent's size if smaller (new pages are zero), then `copy(myBuffer,
parentBuffer)` copies `len(parentBuffer)` bytes over the prefix. -/
def become (my parent : List Nat) : List Nat :=
  let grown := if parent.length > my.length
    then my ++ List.replicate (parent.length - my.length) 0
    else my
  parent ++ grown.drop parent.length

/-- The pool's state: the canon's memory and each replica's memory
(src/unnamed/part_021:11-19). -/
structure PoolState where
  canon : List Nat
  children : List (List Nat)
deriving Repr, DecidableEq

/-- `(pool *Pool) WriteTx(tx)` (src/unnamed/part_021:55-73): run the caller's
closure against (a locked view of) the canon; only when it returns nil is
every replica refreshed via `become`; the closure's error is returned.  `tx`
maps the canon's memory to its new memory plus an optional error. -/
def WriteTx (pool : PoolState) (tx : List Nat → List Nat × Option String) :
    PoolState × Option String :=
  let r := tx pool.canon
  match r.2 with
  | none =>
    (⟨r.1, pool.children.map (fun child => become child r.1)⟩, none)
  | some e => (⟨r.1, pool.children⟩, some e)

/-! ## C6: host-call panic recovery (src/unnamed/part_002:248-272 `catch`,
226-246 `hostCall`)

A host predicate invocation either returns a term or panics; a panic value is
either a `Term` or some other Go value.  `fmt.Sprint` of the panic value is
abstracted as a parameter. -/

inductive PanicVal where
  | term (t : Term)
  | other (descr : String)

inductive ProcOutcome where
  | ok (t : Term)
  | panicked (v : PanicVal)

/-- `system_error(panic(<msg>), <pi>)` wrapped in `throw/1`
(src/unnamed/part_002:263-268). -/
def sysErrPanic (msg : String) (pi : Term) : Term :=
  throwTerm (.compound "system_error" [.compound "panic" [.str msg], pi])

/-- `func catch(pred, pl, subq, goal)` (src/unnamed/part_002:248-272): recover
any panic; a panicked `Atom` is wrapped in `throw/1`; a panicked `Compound`
passes through if already `throw/1`, otherwise is wrapped; any other panic
value (including non-atom/compound terms, which fall to the type switch's
default case) becomes `throw(system_error(panic(fmt.Sprint(v)), goal.pi()))`. -/
def catchPred (sprint : PanicVal → String) (out : ProcOutcome) (goal : Term) :
    Term :=
  match out with
  | .ok t => t
  | .panicked v =>
    match v with
    | .term (.atom a) => throwTerm (.atom a)
    | .term (.compound f args) =>
      if f = "throw" ∧ args.length = 1 then .compound f args
      else throwTerm (.compound f args)
    | w => sysErrPanic (sprint w) (piOf goal)

/-- Whether a panic value is a `Term` (hits the `Atom`/`Compound` cases or a
non-atomic term's default case with term text). -/
def isTermPanic : PanicVal → Bool
  | .term _ => true
  | .other _ => false

/-! ## C7: the non-deterministic bridge (src/unnamed/part_002:86-104
`sys_coro_next_2`, 135-148 `CoroNext`)

A coroutine's pull state is the list of terms it has yet to yield (`iter.Pull`
on a finite sequence); the interpreter's coroutine table maps ids to pull
states, and the owning query's coroutine-id set is carried alongside.  A Go
sequence could yield a nil `Term`; terms in this model are total values, so
the `t == nil` guard of `sys_coro_next_2` is never taken. -/

structure CoroSt where
  coros : List (Int × List Term)
  qcoros : List Int

def lookupCoro (l : List (Int × List Term)) (id : Int) : Option (List Term) :=
  (l.find? (fun p => p.1 = id)).map (·.2)

def removeCoro (l : List (Int × List Term)) (id : Int) : List (Int × List Term) :=
  l.filter (fun p => p.1 ≠ id)

def updateCoro (l : List (Int × List Term)) (id : Int) (rest : List Term) :
    List (Int × List Term) :=
  l.map (fun p => if p.1 = id then (id, rest) else p)

/-- `(pl *prolog) CoroNext` (src/unnamed/part_002:135-148): unknown id yields
`(Atom("false"), false)` untouched; an exhausted pull deletes the coroutine
from the interpreter table and the owning query's set and yields
`(nil, false)`; otherwise the next term with `true`. -/
def CoroNext (st : CoroSt) (id : Int) : (Option Term × Bool) × CoroSt :=
  match lookupCoro st.coros id with
  | none => ((some (.atom "false"), false), st)
  | some [] =>
    ((none, false), ⟨removeCoro st.coros id, st.qcoros.filter (fun x => x ≠ id)⟩)
  | some (t :: ts) => ((some t, true), ⟨updateCoro st.coros id ts, st.qcoros⟩)

/-- `func sys_coro_next_2(pl, subquery, goal)` (src/unnamed/part_002:86-104):
the goal is the dispatched compound `'$coro_next'(Arg0, Arg1)`; a non-integer
Arg0 returns `throwTerm(domainError(...))` (the goal's pi is `$coro_next/2`) —
since `domainError` already wraps in `throw/1`, this branch really produces a
double-wrapped `throw(throw(error(...)))`; otherwise pull:
`!ok || t == nil` returns the atom `fail`, else
`call(( Arg1 = T ; '$coro_next'(Id, Arg1) ))`. -/
def sysCoroNext2 (st : CoroSt) (arg0 arg1 : Term) : Term × CoroSt :=
  match arg0 with
  | .int id =>
    let r := CoroNext st id
    match r.1 with
    | (some t, true) =>
      (.compound "call"
        [.compound ";"
          [.compound "=" [arg1, t],
           .compound "$coro_next" [.int id, arg1]]], r.2)
    | _ => (.atom "fail", r.2)
  | _ => (throwTerm (domainError "integer" arg0 (piTerm "$coro_next" 2)), st)

/-- Whether the interpreter's coroutine table still has an entry for `id`. -/
def hasCoro (st : CoroSt) (id : Int) : Bool :=
  (lookupCoro st.coros id).isSome

/-! ## C8: clone (src/unnamed/part_024:240-257, 283-308)

An interpreter image: its guest memory, the keys of the running registry
(subquery handles), and the keys of the spawning registry (addresses of
not-yet-filled handle cells). -/

structure InterpImage where
  mem : List Nat
  running : List Nat
  spawning : List Nat
deriving Repr, DecidableEq

/-- Little-endian 32-bit read, `memory.ReadUint32Le` with a zero result for
out-of-range reads and a nil-pointer guard (src/unnamed/part_024:407-414). -/
def indirectM (mem : List Nat) (p : Nat) : Nat :=
  if p = 0 then 0
  else if p + 4 ≤ mem.length then
    mem.getD p 0 + 256 * mem.getD (p + 1) 0 + 65536 * mem.getD (p + 2) 0 +
      16777216 * mem.getD (p + 3) 0
  else 0

/-- The clone path of `(pl *prolog) init(parent)` (src/unnamed/part_024:
214-257): fresh empty running/spawning registries and coroutine table, memory
refreshed from the parent via `become`, then every handle pointer read out of
the parent's spawning registry (skipping unfilled, i.e. zero, cells) and every
handle in the parent's running registry is released with `pl_done`.  `fresh`
is the new module instance's initial memory; the returned list collects the
handles passed to `pl_done`, in order. -/
def cloneInit (parent : InterpImage) (fresh : List Nat) :
    InterpImage × List Nat :=
  let mem := become fresh parent.mem
  let spawnDone := parent.spawning.filterMap fun pp =>
    let h := indirectM mem pp
    if h ≠ 0 then some h else none
  (⟨mem, [], []⟩, spawnDone ++ parent.running)

/-! ## C9: the memory bridge read (src/unnamed/part_013:44-54 `gets`) -/

/-- wazero's `api.Memory.Read(offset, byteCount)`: defined exactly when
`offset + byteCount ≤ len(memory)`. -/
def memRead (mem : List Nat) (addr size : Nat) : Option (List Nat) :=
  if addr + size ≤ mem.length then some ((mem.drop addr).take size) else none

/-- `(pl *prolog) gets(addr, size)` (src/unnamed/part_013:44-54): a zero
address or zero size short-circuits to the empty string; otherwise
`memory.Read`, with `!ok` surfacing the "invalid string" error (`none`). -/
def gets (mem : List Nat) (addr size : Nat) : Option (List Nat) :=
  if addr = 0 ∨ size = 0 then some []
  else memRead mem addr size

/-! ## C10: variable binding (src/unnamed/part_016:474-486 and
src/trealla/query.go:445-457 `bindVar`; both versions are identical) -/

structure BindingM where
  name : String
  value : Term
deriving Repr

/-- `(q *query) bindVar(name, value)`: scan the bind list; the first entry
with the same name is replaced in place; otherwise append. -/
def bindVar : List BindingM → String → Term → List BindingM
  | [], n, v => [⟨n, v⟩]
  | b :: rest, n, v =>
    if b.name = n then ⟨n, v⟩ :: rest else b :: bindVar rest n v

/-- A sequence of `WithBind`/`bindVar` calls applied in order to the empty
bind list (as `start`'s option processing does, src/unnamed/part_016:167-170). -/
def applyBinds (ops : List (String × Term)) : List BindingM :=
  ops.foldl (fun bs p => bindVar bs p.1 p.2) []

/-- The term the bind list currently associates with `n` (the value the
`n = Term` equation in the reified prefix would carry). -/
def lookupBind : List BindingM → String → Option Term
  | [], _ => none
  | b :: rest, n => if b.name = n then some b.value else lookupBind rest n

/-- The last value bound to `n` in a sequence of bind operations. -/
def lastBound : List (String × Term) → String → Option Term
  | [], _ => none
  | p :: rest, n =>
    match lastBound rest n with
    | some v => some v
    | none => if p.1 = n then some p.2 else none

/-! # Theorems -/

/-! ## Helper lemmas -/

theorem queryEscaper_eq (s : List Char) :
    queryEscaper s = s.flatMap specNormalizeChar := by
  induction s with
  | nil => rfl
  | cons c rest ih =>
    simp only [queryEscaper, replaceChars, List.flatMap_cons] at *
    rw [ih]
    congr 1
    by_cases h1 : c = '\t'
    · subst h1; rfl
    · by_cases h2 : c = '\n'
      · subst h2; rfl
      · by_cases h3 : c = '\r'
        · subst h3; rfl
        · simp [List.find?, specNormalizeChar, h1, h2, h3, Ne.symm h1, Ne.symm h2,
            Ne.symm h3]

theorem stringEscaper_eq (s : List Char) :
    stringEscaper s = s.flatMap specEscapeChar := by
  induction s with
  | nil => rfl
  | cons c rest ih =>
    simp only [stringEscaper, replaceChars, List.flatMap_cons] at *
    rw [ih]
    congr 1
    by_cases h1 : c = '\\'
    · subst h1; rfl
    · by_cases h2 : c = '"'
      · subst h2; rfl
      · simp [List.find?, specEscapeChar, h1, h2, Ne.symm h1, Ne.symm h2]

/-! ## C2 -/

/-- C2: for every write transaction whose closure returns a non-nil error, no
replica is refreshed from the canon — every replica's guest memory is
byte-for-byte unchanged by `WriteTx` — and `WriteTx` returns that error. -/
theorem writeTx_error_leaves_replicas (pool : PoolState)
    (tx : List Nat → List Nat × Option String) (e : String)
    (h : (tx pool.canon).2 = some e) :
    (WriteTx pool tx).1.children = pool.children ∧
    (WriteTx pool tx).2 = some e := by
  simp [WriteTx, h]

/-- Witness for C2 at a concrete pool and failing transaction. -/
theorem writeTx_error_leaves_replicas_witness :
    (WriteTx ⟨[1, 2], [[3], [4]]⟩ (fun m => (m ++ [9], some "boom"))).1.children
      = [[3], [4]] ∧
    (WriteTx ⟨[1, 2], [[3], [4]]⟩ (fun m => (m ++ [9], some "boom"))).2
      = some "boom" :=
  writeTx_error_leaves_replicas ⟨[1, 2], [[3], [4]]⟩
    (fun m => (m ++ [9], some "boom")) "boom" rfl

/-! ## C5 -/

/-- C5: for every goal text `g`, the string handed to `pl_query` is exactly
`wasm:js_ask(E).` where `E` is `g` with every tab and newline replaced by a
space, every carriage return deleted, every backslash and double quote
backslash-escaped, and the result enclosed in double quotes. -/
theorem escapeQuery_spec (g : List Char) :
    escapeQuery g = "wasm:js_ask(".data ++ specEscaped g ++ ").".data := by
  simp only [escapeQuery, escapeString, specEscaped, queryEscaper_eq,
    stringEscaper_eq]

/-! ## C9 -/

/-- C9 counterexample: at address 0 with size 1 over the one-byte memory
`[7]`, `gets` succeeds with the empty string instead of returning the byte at
address 0 (the zero-address guard short-circuits), refuting "returns the n
bytes starting at p" as stated. -/
theorem gets_zero_addr_counterexample :
    gets [7] 0 1 = some [] ∧ gets [7] 0 1 ≠ some [7] := by decide

/-- C9 amended: when the pointer and length are both nonzero, `gets` returns
the `size` bytes starting at `addr` and fails exactly when `addr + size`
exceeds the memory size; when the pointer or the length is zero (in
particular the empty range (0,0)) it returns the empty string without error. -/
theorem gets_spec (mem : List Nat) (addr size : Nat) :
    ((addr = 0 ∨ size = 0) → gets mem addr size = some []) ∧
    (addr ≠ 0 → size ≠ 0 → addr + size ≤ mem.length →
      gets mem addr size = some ((mem.drop addr).take size) ∧
      ((mem.drop addr).take size).length = size) ∧
    (addr ≠ 0 → size ≠ 0 → mem.length < addr + size →
      gets mem addr size = none) := by
  refine ⟨fun h => ?_, fun h1 h2 h3 => ⟨?_, ?_⟩, fun h1 h2 h3 => ?_⟩
  · simp [gets, h]
  · simp [gets, memRead, h1, h2, h3]
  · simp only [List.length_take, List.length_drop]
    omega
  · simp [gets, memRead, h1, h2]
    omega

/-- Witness for C9 at a concrete in-bounds read. -/
theorem gets_spec_witness :
    gets [1, 2, 3] 1 2 = some (([1, 2, 3].drop 1).take 2) ∧
    (([1, 2, 3].drop 1).take 2).length = 2 :=
  (gets_spec [1, 2, 3] 1 2).2.1 (by decide) (by decide) (by decide)

/-! ## C10 -/

theorem lookupBind_bindVar (bs : List BindingM) (m n : String) (v : Term) :
    lookupBind (bindVar bs m v) n =
      if n = m then some v else lookupBind bs n := by
  induction bs with
  | nil =>
    by_cases h : n = m <;> simp [bindVar, lookupBind, h, Ne.symm]
  | cons b rest ih =>
    by_cases hb : b.name = m
    · by_cases h : n = m <;>
        simp [bindVar, lookupBind, hb, h, Ne.symm]
    · by_cases hn : b.name = n
      · have : ¬ n = m := fun hc => hb (hc ▸ hn)
        simp [bindVar, lookupBind, hb, hn, this]
      · simp [bindVar, lookupBind, hb, hn, ih]

theorem names_bindVar (bs : List BindingM) (m : String) (v : Term) :
    (bindVar bs m v).map BindingM.name =
      if m ∈ bs.map BindingM.name then bs.map BindingM.name
      else bs.map BindingM.name ++ [m] := by
  induction bs with
  | nil => simp [bindVar]
  | cons b rest ih =>
    by_cases hb : b.name = m
    · simp [bindVar, hb]
    · have hbm : ¬ m = b.name := fun hc => hb hc.symm
      simp only [bindVar, if_neg hb, List.map_cons, List.mem_cons, ih]
      by_cases hm : m ∈ rest.map BindingM.name <;> simp [hm, hbm]

theorem nodup_names_bindVar (bs : List BindingM) (m : String) (v : Term)
    (h : (bs.map BindingM.name).Nodup) :
    ((bindVar bs m v).map BindingM.name).Nodup := by
  rw [names_bindVar]
  by_cases hm : m ∈ bs.map BindingM.name
  · simpa [hm]
  · simp [hm, List.nodup_append, h]

theorem lookupBind_foldl (ops : List (String × Term)) :
    ∀ (bs : List BindingM) (n : String),
      lookupBind (ops.foldl (fun acc p => bindVar acc p.1 p.2) bs) n =
        match lastBound ops n with
        | some v => some v
        | none => lookupBind bs n := by
  induction ops with
  | nil => intro bs n; simp [lastBound]
  | cons p rest ih =>
    intro bs n
    simp only [List.foldl_cons, ih, lastBound]
    cases hl : lastBound rest n with
    | some v => rfl
    | none =>
      simp only []
      rw [lookupBind_bindVar]
      by_cases hn : n = p.1
      · simp [hn]
      · have hpn : ¬ p.1 = n := fun hc => hn hc.symm
        simp [hn, hpn]

theorem nodup_names_foldl (ops : List (String × Term)) :
    ∀ bs : List BindingM, (bs.map BindingM.name).Nodup →
      (((ops.foldl (fun acc p => bindVar acc p.1 p.2) bs)).map
        BindingM.name).Nodup := by
  induction ops with
  | nil => intro bs h; simpa
  | cons p rest ih =>
    intro bs h
    exact ih _ (nodup_names_bindVar bs p.1 p.2 h)

/-- C10: binding the same variable name twice replaces the earlier binding in
place: after any sequence of `bindVar` calls the bind list (hence the reified
`Var = Term` equation prefix) has at most one entry per variable name, and
the entry for a name holds the last value given for it. -/
theorem bindVar_last_wins (ops : List (String × Term)) (n : String) :
    ((applyBinds ops).map BindingM.name).Nodup ∧
    lookupBind (applyBinds ops) n = lastBound ops n := by
  constructor
  · exact nodup_names_foldl ops [] (by simp)
  · rw [applyBinds, lookupBind_foldl]
    cases hl : lastBound ops n <;> simp [lookupBind]

/-! ## C6 -/

/-- C6 counterexample: a host predicate that panics with the Prolog atom
`oops` yields the continuation `throw(oops)` — the ball is the panicked atom
itself, not the `system_error(panic(<message>), <pi>)` shape the claim states
for every panic. -/
theorem catch_atom_panic_counterexample :
    catchPred (fun _ => "recovered oops")
      (.panicked (.term (.atom "oops"))) (.compound "foo" [.int 1])
      = .compound "throw" [.atom "oops"] := rfl

/-- C6 amended: a panicking host predicate never lets the panic escape the
host-call boundary — the continuation is always a `throw/1` compound — and
when the panic value is not itself a Prolog term the continuation is
`throw(system_error(panic(<message>), <pi>))` with the called goal's
predicate indicator; a panicked atom or compound is instead re-thrown as the
ball itself (a `throw/1` compound passes through unchanged). -/
theorem catch_panic_spec (sprint : PanicVal → String) (v : PanicVal)
    (goal : Term) (_hg : isAtomicT goal = true) :
    isThrow (catchPred sprint (.panicked v) goal) = true ∧
    (isTermPanic v = false →
      catchPred sprint (.panicked v) goal =
        sysErrPanic (sprint v) (piOf goal)) := by
  constructor
  · cases v with
    | term t =>
      cases t with
      | atom a => simp [catchPred, throwTerm, isThrow]
      | compound f args =>
        simp only [catchPred]
        split
        · rename_i hcase
          simp [isThrow, hcase.1, hcase.2]
        · simp [isThrow, throwTerm]
      | str s => simp [catchPred, sysErrPanic, throwTerm, isThrow]
      | int n => simp [catchPred, sysErrPanic, throwTerm, isThrow]
      | var nm => simp [catchPred, sysErrPanic, throwTerm, isThrow]
    | other d => simp [catchPred, sysErrPanic, throwTerm, isThrow]
  · intro hv
    cases v with
    | term t => simp [isTermPanic] at hv
    | other d => rfl

/-- Witness for C6 at a concrete non-term panic. -/
theorem catch_panic_spec_witness :
    isThrow (catchPred (fun _ => "boom")
      (.panicked (.other "boom")) (.atom "foo")) = true ∧
    catchPred (fun _ => "boom") (.panicked (.other "boom")) (.atom "foo")
      = sysErrPanic "boom" (piOf (.atom "foo")) := by
  have h := catch_panic_spec (fun _ => "boom") (.other "boom") (.atom "foo") rfl
  exact ⟨h.1, h.2 rfl⟩

/-! ## C7 -/

/-- C7 counterexample: with a live coroutine 1 whose next term is the atom
`a`, `'$coro_next'(1, X)` returns `call((X = a ; '$coro_next'(1, X)))` — a
`call/1` compound wrapping the disjunction, not a bare disjunction as the
claim states. -/
theorem coro_next_counterexample :
    (sysCoroNext2 ⟨[(1, [Term.atom "a"])], [1]⟩ (.int 1) (.var "X")).1 =
      .compound "call"
        [.compound ";"
          [.compound "=" [.var "X", .atom "a"],
           .compound "$coro_next" [.int 1, .var "X"]]] := rfl

theorem lookupCoro_removeCoro (l : List (Int × List Term)) (id : Int) :
    lookupCoro (removeCoro l id) id = none := by
  have hfind :
      List.find? (fun p => decide (p.1 = id))
        (List.filter (fun p => decide (p.1 ≠ id)) l) = none := by
    rw [List.find?_eq_none]
    intro p hp
    simp only [List.mem_filter] at hp
    simpa using hp.2
  simp [lookupCoro, removeCoro, hfind]

theorem lookupCoro_updateCoro (l : List (Int × List Term)) (id : Int)
    (ts : List Term) (h : (lookupCoro l id).isSome) :
    lookupCoro (updateCoro l id ts) id = some ts := by
  induction l with
  | nil => simp [lookupCoro] at h
  | cons p rest ih =>
    by_cases hp : p.1 = id
    · simp [lookupCoro, updateCoro, List.find?, hp]
    · simp only [lookupCoro, updateCoro, List.map_cons, if_neg hp] at *
      rw [List.find?_cons_of_neg _ (by simpa using hp)] at h ⊢
      exact ih h

/-- C7 amended: `'$coro_next'(Id, Goal)` with an absent id returns the atom
`fail` leaving the state unchanged (the id is not in the table); with an
exhausted sequence it returns `fail` and removes the coroutine from the
interpreter's coroutine table and from the owning query's set; otherwise it
returns `call/1` wrapping the disjunction `(Goal = T ; '$coro_next'(Id,
Goal))` — the engine calls it, preserving a choice point — and the table
retains the coroutine with the rest of its sequence. -/
theorem coro_next_spec (st : CoroSt) (id : Int) (goalArg : Term) :
    (lookupCoro st.coros id = none →
      sysCoroNext2 st (.int id) goalArg = (.atom "fail", st)) ∧
    (lookupCoro st.coros id = some [] →
      (sysCoroNext2 st (.int id) goalArg).1 = .atom "fail" ∧
      hasCoro (sysCoroNext2 st (.int id) goalArg).2 id = false ∧
      id ∉ (sysCoroNext2 st (.int id) goalArg).2.qcoros) ∧
    (∀ t ts, lookupCoro st.coros id = some (t :: ts) →
      (sysCoroNext2 st (.int id) goalArg).1 =
        .compound "call"
          [.compound ";"
            [.compound "=" [goalArg, t],
             .compound "$coro_next" [.int id, goalArg]]] ∧
      lookupCoro (sysCoroNext2 st (.int id) goalArg).2.coros id = some ts) := by
  refine ⟨fun h => ?_, fun h => ?_, fun t ts h => ?_⟩
  · simp [sysCoroNext2, CoroNext, h]
  · refine ⟨?_, ?_, ?_⟩
    · simp [sysCoroNext2, CoroNext, h]
    · simp [sysCoroNext2, CoroNext, h, hasCoro, lookupCoro_removeCoro]
    · simp [sysCoroNext2, CoroNext, h]
  · constructor
    · simp [sysCoroNext2, CoroNext, h]
    · simp only [sysCoroNext2, CoroNext, h]
      exact lookupCoro_updateCoro st.coros id ts (by simp [h])

/-- Witness for C7 at a concrete coroutine pull. -/
theorem coro_next_spec_witness :
    (sysCoroNext2 ⟨[(2, [Term.int 5])], [2]⟩ (.int 2) (.var "Y")).1 =
      .compound "call"
        [.compound ";"
          [.compound "=" [.var "Y", .int 5],
           .compound "$coro_next" [.int 2, .var "Y"]]] ∧
    lookupCoro (sysCoroNext2 ⟨[(2, [Term.int 5])], [2]⟩
      (.int 2) (.var "Y")).2.coros 2 = some [] :=
  (coro_next_spec ⟨[(2, [Term.int 5])], [2]⟩ 2 (.var "Y")).2.2
    (Term.int 5) [] rfl

/-! ## C8 -/

/-- C8: immediately after cloning, the clone's guest memory size is at least
the source's size at clone time; every handle in the source's running
registry and every nonzero handle read out of a source spawning-registry cell
is passed to `pl_done` in the clone; and the clone starts with empty running
and spawning registries, so no source query is live in the clone. -/
theorem cloneInit_spec (parent : InterpImage) (fresh : List Nat) :
    parent.mem.length ≤ (cloneInit parent fresh).1.mem.length ∧
    (∀ h ∈ parent.running, h ∈ (cloneInit parent fresh).2) ∧
    (∀ pp ∈ parent.spawning,
      indirectM (cloneInit parent fresh).1.mem pp ≠ 0 →
      indirectM (cloneInit parent fresh).1.mem pp ∈ (cloneInit parent fresh).2) ∧
    (cloneInit parent fresh).1.running = [] ∧
    (cloneInit parent fresh).1.spawning = [] := by
  refine ⟨?_, fun h hh => ?_, fun pp hpp hnz => ?_, rfl, rfl⟩
  · simp only [cloneInit, become, List.length_append]
    exact Nat.le_add_right _ _
  · simp only [cloneInit, List.mem_append]
    exact Or.inr hh
  · simp only [cloneInit, List.mem_append]
    refine Or.inl (List.mem_filterMap.mpr ⟨pp, hpp, ?_⟩)
    simp only [cloneInit] at hnz
    simp [hnz]

/-- Witness for C8 at a concrete source image: one running handle 7, one
spawning cell at address 1 whose little-endian contents are 42. -/
theorem cloneInit_spec_witness :
    (7 ∈ (cloneInit ⟨[9, 42, 0, 0, 0], [7], [1]⟩ []).2) ∧
    (42 ∈ (cloneInit ⟨[9, 42, 0, 0, 0], [7], [1]⟩ []).2) := by
  have h := cloneInit_spec ⟨[9, 42, 0, 0, 0], [7], [1]⟩ []
  refine ⟨h.2.1 7 (by decide), ?_⟩
  have h2 := h.2.2.1 1 (by decide) (by decide)
  simpa using h2

/-! ## C3/C4 helper lemmas -/

theorem idxOf_of_not_mem (ch : Char) (s : List Char) (h : ch ∉ s) :
    idxOf ch s = -1 := by
  induction s with
  | nil => rfl
  | cons x rest ih =>
    have hx : ¬ x = ch := fun hc => h (hc ▸ List.mem_cons_self x rest)
    have hrest : ch ∉ rest := fun hm => h (List.mem_cons_of_mem _ hm)
    simp [idxOf, hx, ih hrest]

theorem idxOf_append_cons (ch : Char) (a t : List Char) (h : ch ∉ a) :
    idxOf ch (a ++ ch :: t) = (a.length : Int) := by
  induction a with
  | nil => simp [idxOf]
  | cons x rest ih =>
    have hx : ¬ x = ch := fun hc => h (hc ▸ List.mem_cons_self x rest)
    have hrest : ch ∉ rest := fun hm => h (List.mem_cons_of_mem _ hm)
    have hne : ((rest.length : Int)) ≠ -1 := by omega
    simp only [List.cons_append, idxOf, if_neg hx, List.append_eq, ih hrest,
      if_neg hne, List.length_cons]
    push_cast
    omega

theorem trimmedEmpty_eq_false_of_mem (x : Char) (s : List Char) (hx : x ∈ s)
    (hns : goIsSpace x = false) : trimmedEmpty s = false := by
  refine Bool.eq_false_iff.mpr fun hall => ?_
  have := List.all_eq_true.mp hall x hx
  rw [hns] at this
  exact Bool.false_ne_true this

/-! ## C4 -/

/-- C4 counterexample: the empty captured stdout contains no ETX byte, yet
`parse` reports a query failure (`ErrFailure`), not a malformed-response
protocol error — the whitespace-only early return precedes the ETX check. -/
theorem parse_no_etx_counterexample :
    (parse (fun _ => none) "g".data [] []).2 = some ParseErr.failure ∧
    (parse (fun _ => none) "g".data [] []).2 ≠ some ParseErr.protocol ∧
    etxC ∉ ([] : List Char) := by decide

/-- C4 amended: a captured stdout that is NOT whitespace-only and contains no
ETX yields the malformed-response protocol error (whitespace-only stdout is
reported as failure instead); when ETX is present — framed as
`a STX b ETX c \n d` with the markers first occurrences and the newline the
first after ETX — the text `b` between STX and ETX becomes the answer's
user-visible stdout and the text `c` after ETX up to the newline is handed to
the JSON envelope decoder, whose verdict is the parse outcome. -/
theorem parse_framing_spec (dec : List Char → Option Resp)
    (g stderrS : List Char) :
    (∀ s : List Char, trimmedEmpty s = false → etxC ∉ s →
      (parse dec g s stderrS).2 = some ParseErr.protocol) ∧
    (∀ a b c d : List Char, stxC ∉ a → etxC ∉ a → etxC ∉ b → '\n' ∉ c →
      parse dec g (a ++ (stxC :: (b ++ (etxC :: (c ++ ('\n' :: d)))))) stderrS
        = (⟨g, b, stderrS⟩, statusOutcome (dec c))) := by
  constructor
  · intro s hts hetx
    have he : idxOf etxC s = -1 := idxOf_of_not_mem _ _ hetx
    simp [parse, hts, he]
  · intro a b c d hstx hetxa hetxb hnlc
    set L : List Char := a ++ (stxC :: (b ++ (etxC :: (c ++ ('\n' :: d)))))
      with hLdef
    set P : List Char := a ++ stxC :: b with hPdef
    have hLP : L = P ++ etxC :: (c ++ '\n' :: d) := by
      simp [hLdef, hPdef]
    have htrim : trimmedEmpty L = false := by
      refine trimmedEmpty_eq_false_of_mem stxC L ?_ (by decide)
      exact List.mem_append.mpr (Or.inr (List.mem_cons_self _ _))
    have hstart : idxOf stxC L = (a.length : Int) :=
      idxOf_append_cons stxC a _ hstx
    have hetxP : etxC ∉ P := by
      intro hm
      rcases List.mem_append.mp hm with hma | hmb
      · exact hetxa hma
      · rcases List.mem_cons.mp hmb with hq | hq
        · exact absurd hq (by decide)
        · exact hetxb hq
    have hend : idxOf etxC L = (P.length : Int) := by
      rw [hLP]
      exact idxOf_append_cons etxC P _ hetxP
    have hendne : ((P.length : Int)) ≠ -1 := by omega
    have hdrop : L.drop (P.length + 1) = c ++ '\n' :: d := by
      have hsplit : L = (P ++ [etxC]) ++ (c ++ '\n' :: d) := by
        simp [hLP]
      have hlen : (P ++ [etxC]).length = P.length + 1 := by simp
      rw [hsplit, ← hlen, List.drop_left]
    have hnl : idxOf '\n' (c ++ '\n' :: d) = (c.length : Int) :=
      idxOf_append_cons '\n' c d hnlc
    have hPlen : P.length = a.length + (b.length + 1) := by
      simp [hPdef]
    have houtput : (L.take P.length).drop (a.length + 1) = b := by
      have htake : L.take P.length = P := by
        rw [hLP]; exact List.take_left P _
      rw [htake]
      have hsplit : P = (a ++ [stxC]) ++ b := by simp [hPdef]
      have hlen : (a ++ [stxC]).length = a.length + 1 := by simp
      rw [hsplit, ← hlen, List.drop_left]
    have hjs : (L.take (P.length + 1 + c.length)).drop (P.length + 1) = c := by
      have hsplit : L = ((P ++ [etxC]) ++ c) ++ ('\n' :: d) := by
        simp [hLP]
      have hlen1 : ((P ++ [etxC]) ++ c).length = P.length + 1 + c.length := by
        simp only [List.length_append, List.length_cons, List.length_nil]
      have htake : L.take (P.length + 1 + c.length) = (P ++ [etxC]) ++ c := by
        rw [hsplit, ← hlen1, List.take_left]
      rw [htake]
      have hlen2 : (P ++ [etxC]).length = P.length + 1 := by simp
      rw [← hlen2, List.drop_left]
    unfold parse
    rw [htrim]
    simp only [Bool.false_eq_true, if_false, hstart, hend, if_neg hendne,
      Int.toNat_natCast, hdrop, hnl]
    have hnlval : ((c.length : Int)) + ((P.length : Int)) + 1 =
        (((c.length + P.length + 1 : Nat)) : Int) := by push_cast; ring
    rw [hnlval]
    have hge : (0 : Int) ≤ (((c.length + P.length + 1 : Nat)) : Int) := by
      positivity
    rw [if_pos hge, Int.toNat_natCast]
    have hs1 : ((a.length : Int) + 1).toNat = a.length + 1 := by omega
    rw [hs1]
    have hcond : ¬ (a.length + 1 > P.length ∨
        c.length + P.length + 1 < P.length + 1) := by
      push_neg
      constructor <;> omega
    rw [if_neg hcond]
    have hbutt : c.length + P.length + 1 = P.length + 1 + c.length := by omega
    simp only [sl, hbutt, houtput, hjs]

/-- Witness for C4's amended statement at a concrete framed response. -/
theorem parse_framing_spec_witness :
    parse (fun _ => none) "g".data
        ([] ++ (stxC :: ("hi".data ++ (etxC :: ("json".data ++ ('\n' :: []))))))
        []
      = (⟨"g".data, "hi".data, []⟩, statusOutcome none) :=
  (parse_framing_spec (fun _ => none) "g".data []).2 [] "hi".data "json".data []
    (by decide) (by decide) (by decide) (by decide)

/-! ## C3 -/

/-- C3 counterexample: a goal with no solutions — `pl_query` returns 0 and
the captured stdout carries a status-`failure` envelope (decoded here by a
decoder that maps that envelope to the failure status) — makes `start` record
`ErrFailure` via `setError`; `Next` then returns false, but `Err()` returns
`ErrFailure`, not nil. -/
theorem failure_err_counterexample :
    (wnext (startTail false
        (parse
          (fun js => if js = "failenv".data then some ⟨statusFailure, true⟩
            else none)
          "false.".data "\x02\x03failenv\n".data []).2)
        false none).2 = false ∧
    (startTail false
        (parse
          (fun js => if js = "failenv".data then some ⟨statusFailure, true⟩
            else none)
          "false.".data "\x02\x03failenv\n".data []).2).err
      = some ParseErr.failure := by decide

/-- C3 amended: `Next` returns false for a failed goal in all cases, but the
error observed through `Err()` differs by position: when the goal fails on
the FIRST solution, `start` records the parse's `ErrFailure` and `Err()`
returns it (non-nil); a failure encountered by `redo` after at least one
answer is swallowed (`IsFailure` returns false without `setError`) and
`Err()` stays nil. -/
theorem failure_reporting_spec (dec : List Char → Option Resp)
    (g s e : List Char) (ret0 ret ret2 : Bool) (pr : Option ParseErr)
    (q : WQuery) (hfail : (parse dec g s e).2 = some ParseErr.failure)
    (hq1 : q.err = none) (hq2 : q.staged = false) (hq3 : q.done = false) :
    ((wnext (startTail ret0 (parse dec g s e).2) ret pr).2 = false ∧
      (startTail ret0 (parse dec g s e).2).err = some ParseErr.failure) ∧
    ((wnext q ret2 (some ParseErr.failure)).2 = false ∧
      (wnext q ret2 (some ParseErr.failure)).1.err = none) := by
  rw [hfail]
  refine ⟨⟨?_, ?_⟩, ?_, ?_⟩
  · simp [wnext, startTail, setErrorW]
  · simp [startTail, setErrorW]
  · simp [wnext, redoStep, hq1, hq2, hq3]
  · simp [wnext, redoStep, hq1, hq2, hq3]

/-- Witness for C3's amended statement at a concrete failing goal. -/
theorem failure_reporting_spec_witness :
    ((wnext (startTail false
        (parse
          (fun js => if js = "fenv".data then some ⟨statusFailure, true⟩
            else none)
          "false.".data "\x02\x03fenv\n".data []).2)
        false none).2 = false ∧
      (startTail false
        (parse
          (fun js => if js = "fenv".data then some ⟨statusFailure, true⟩
            else none)
          "false.".data "\x02\x03fenv\n".data []).2).err
        = some ParseErr.failure) ∧
    ((wnext ⟨none, false, false⟩ true (some ParseErr.failure)).2 = false ∧
      (wnext ⟨none, false, false⟩ true (some ParseErr.failure)).1.err
        = none) :=
  failure_reporting_spec
    (fun js => if js = "fenv".data then some ⟨statusFailure, true⟩ else none)
    "false.".data "\x02\x03fenv\n".data [] false false true none
    ⟨none, false, false⟩ (by decide) rfl rfl rfl

/-! ## C1 -/

theorem closeQ_inv (h : Nat) (s : SysState) (hh : h ≠ 0)
    (c1 : s.pl.doneCalls ≤ 1)
    (c2 : s.q.subquery = h ∨ s.q.subquery = 0)
    (c3 : s.q.subquery = 0 → s.q.done = true)
    (c4 : s.q.subquery = 0 → h ∉ s.pl.running)
    (c5 : ∀ x ∈ s.pl.running, x = h)
    (c6 : s.pl.doneCalls = 1 → s.q.done = true) :
    InvQ h (closeQ s) := by
  obtain ⟨⟨sub, dn, dd, ans, es⟩, run, dc⟩ := s
  dsimp only at c1 c2 c3 c4 c5 c6
  have hrun : ∀ x ∈ run.filter (fun x => x ≠ h), x = h := by
    intro x hx
    exact c5 x (List.mem_filter.mp hx).1
  have hnot : h ∉ run.filter (fun x => x ≠ h) := by
    intro hx
    have hxx := (List.mem_filter.mp hx).2
    simp at hxx
  rcases c2 with hsub | hsub
  · have hsubne : sub ≠ 0 := by rw [hsub]; exact hh
    cases dn with
    | true =>
      have hres : closeQ ⟨⟨sub, true, dd, ans, es⟩, run, dc⟩ =
          ⟨⟨sub, true, true, ans, es⟩, run.filter (fun x => x ≠ sub), dc⟩ := by
        cases dd <;> simp [closeQ, eraseRun, hsubne]
      rw [hres]
      refine ⟨c1, Or.inl hsub, fun _ => rfl, fun _ => ?_, ?_, fun _ => rfl⟩
      · rw [hsub]; exact hnot
      · rw [hsub]; exact hrun
    | false =>
      have hdc0 : dc = 0 := by
        rcases Nat.lt_or_ge dc 1 with hlt | hge
        · omega
        · have hcontra := c6 (le_antisymm c1 hge)
          cases hcontra
      have hres : closeQ ⟨⟨sub, false, dd, ans, es⟩, run, dc⟩ =
          ⟨⟨0, true, true, ans, es⟩, run.filter (fun x => x ≠ sub), dc + 1⟩ := by
        cases dd <;> simp [closeQ, eraseRun, hsubne]
      rw [hres]
      refine ⟨by dsimp only; omega, Or.inr rfl, fun _ => rfl, fun _ => ?_, ?_,
        fun _ => rfl⟩
      · rw [hsub]; exact hnot
      · rw [hsub]; exact hrun
  · have hdn := c3 hsub
    subst hdn
    subst hsub
    have hres : closeQ ⟨⟨0, true, dd, ans, es⟩, run, dc⟩ =
        ⟨⟨0, true, true, ans, es⟩, run, dc⟩ := by
      cases dd <;> simp [closeQ, eraseRun]
    rw [hres]
    exact ⟨c1, Or.inr rfl, fun _ => rfl, fun _ => c4 rfl, c5, fun _ => rfl⟩

theorem popQ_inv (h : Nat) (s : SysState) (hs : InvQ h s) :
    InvQ h (popQ s).1 := by
  unfold popQ
  split
  · exact hs
  · exact hs

theorem redoQ_inv (h : Nat) (s : SysState) (hh : h ≠ 0) (hs : InvQ h s)
    (hdone : s.q.done = false) (r : Bool) (p : Nat) (g : Bool) :
    InvQ h (redoQ s r p g).1 := by
  obtain ⟨⟨sub, dn, dd, ans, es⟩, run, dc⟩ := s
  obtain ⟨h1, h2, h3, h4, h5, h6⟩ := hs
  dsimp only at h1 h2 h3 h4 h5 h6 hdone
  subst hdone
  have hsub : sub = h := by
    rcases h2 with h2 | h2
    · exact h2
    · cases h3 h2
  have hsubne : sub ≠ 0 := by rw [hsub]; exact hh
  have hdc0 : dc = 0 := by
    rcases Nat.lt_or_ge dc 1 with hlt | hge
    · omega
    · cases h6 (le_antisymm h1 hge)
  cases g with
  | true =>
    have hres : (redoQ ⟨⟨sub, false, dd, ans, es⟩, run, dc⟩ r p true).1 =
        closeQ ⟨⟨sub, !r, dd, ans + p, true⟩, run, dc⟩ := by
      simp [redoQ]
    rw [hres]
    refine closeQ_inv h _ hh h1 (Or.inl hsub) ?_ ?_ h5 ?_
    · intro hz; exact absurd hz hsubne
    · intro hz; exact absurd hz hsubne
    · intro hc; rw [hdc0] at hc; cases hc
  | false =>
    cases r with
    | false =>
      have hres : (redoQ ⟨⟨sub, false, dd, ans, es⟩, run, dc⟩ false p false).1 =
          closeQ ⟨⟨sub, true, dd, ans + p, es⟩,
            run.filter (fun x => x ≠ sub), dc⟩ := by
        simp [redoQ, eraseRun]
      rw [hres]
      refine closeQ_inv h _ hh h1 (Or.inl hsub) ?_ ?_ ?_ ?_
      · intro hz; exact absurd hz hsubne
      · intro hz; exact absurd hz hsubne
      · intro x hx
        exact h5 x (List.mem_filter.mp hx).1
      · intro _; rfl
    | true =>
      have hres : (redoQ ⟨⟨sub, false, dd, ans, es⟩, run, dc⟩ true p false).1 =
          ⟨⟨sub, false, dd, ans + p, es⟩, run, dc⟩ := by
        simp [redoQ]
      rw [hres]
      refine ⟨h1, Or.inl hsub, fun hz => absurd hz hsubne, fun hc => ?_, h5,
        fun hc => ?_⟩
      · rcases hc with hc | hc
        · cases hc
        · exact h4 (Or.inr hc)
      · rw [hdc0] at hc; cases hc

theorem nextQ_inv (h : Nat) (s : SysState) (hh : h ≠ 0) (hs : InvQ h s)
    (r : Bool) (p : Nat) (g : Bool) : InvQ h (nextQ s r p g).1 := by
  unfold nextQ
  by_cases he : s.q.errSet = true
  · simpa [he] using hs
  · have he' : s.q.errSet = false := by
      cases hb : s.q.errSet
      · rfl
      · exact absurd hb he
    simp only [he', Bool.false_eq_true, if_false]
    have hp := popQ_inv h s hs
    by_cases hgot : (popQ s).2 = true
    · simpa [hgot] using hp
    · have hgot' : (popQ s).2 = false := by
        cases hb : (popQ s).2
        · rfl
        · exact absurd hb hgot
      simp only [hgot', Bool.false_eq_true, if_false]
      by_cases hd : (popQ s).1.q.done = true
      · simpa [hd] using hp
      · have hd' : (popQ s).1.q.done = false := by
          cases hb : (popQ s).1.q.done
          · rfl
          · exact absurd hb hd
        simp only [hd', Bool.false_eq_true, if_false]
        have hredo := redoQ_inv h (popQ s).1 hh hp hd' r p g
        by_cases hok : (redoQ (popQ s).1 r p g).2 = true
        · simpa [hok] using popQ_inv h _ hredo
        · have hok' : (redoQ (popQ s).1 r p g).2 = false := by
            cases hb : (redoQ (popQ s).1 r p g).2
            · rfl
            · exact absurd hb hok
          simpa [hok'] using hredo

theorem stepQ_inv (h : Nat) (s : SysState) (hh : h ≠ 0) (hs : InvQ h s)
    (ev : QEvent) : InvQ h (stepQ s ev) := by
  cases ev with
  | next r p g => exact nextQ_inv h s hh hs r p g
  | close =>
    obtain ⟨h1, h2, h3, h4, h5, h6⟩ := hs
    exact closeQ_inv h s hh h1 h2 h3 (fun hz => h4 (Or.inl (h3 hz))) h5 h6

theorem runQ_inv (h : Nat) (evs : List QEvent) :
    ∀ s : SysState, h ≠ 0 → InvQ h s → InvQ h (runQ s evs) := by
  induction evs with
  | nil => intro s _ hs; exact hs
  | cons ev rest ih =>
    intro s hh hs
    exact ih (stepQ s ev) hh (stepQ_inv h s hh hs ev)

theorem initQ_inv (h k : Nat) (hh : h ≠ 0) : InvQ h (initQ h k) := by
  refine ⟨by simp [initQ], Or.inl rfl, fun hz => absurd hz hh,
    fun hc => ?_, ?_, fun hc => by cases hc⟩
  · rcases hc with hc | hc <;> cases hc
  · intro x hx
    simpa [initQ] using hx

/-- C1 counterexample: a query that yields one answer and is then driven to
exhaustion by a second `Next` (the engine's `pl_redo` returns 0) finishes —
done and dead, handle gone from the running registry — with ZERO `pl_done`
invocations: when `pl_redo` reports no-more the engine has already freed the
handle and `close` skips `pl_done`, refuting "exactly once". -/
theorem query_exhaustion_no_done_counterexample :
    ((runQ (initQ 1 1) [QEvent.next true 0 false,
        QEvent.next false 0 false]).q.done = true ∧
      (runQ (initQ 1 1) [QEvent.next true 0 false,
        QEvent.next false 0 false]).q.dead = true) ∧
    (runQ (initQ 1 1) [QEvent.next true 0 false,
      QEvent.next false 0 false]).pl.doneCalls = 0 := by decide

/-- C1 amended: over every sequence of `Next`/`Close` events on an iterator
that obtained a live subquery handle, `pl_done` is invoked on that handle AT
MOST once (exactly once when the iterator is closed while the handle is still
live; zero times when `pl_redo` reported exhaustion first, the engine having
invalidated the handle itself), and once the iterator is exhausted or closed
the interpreter's running registry no longer maps the handle. -/
theorem query_done_at_most_once (h k : Nat) (evs : List QEvent)
    (hh : h ≠ 0) :
    (runQ (initQ h k) evs).pl.doneCalls ≤ 1 ∧
    (((runQ (initQ h k) evs).q.done = true ∨
        (runQ (initQ h k) evs).q.dead = true) →
      h ∉ (runQ (initQ h k) evs).pl.running) := by
  have hi := runQ_inv h evs (initQ h k) hh (initQ_inv h k hh)
  exact ⟨hi.1, hi.2.2.2.1⟩

/-- Witness for C1's amended statement at a concrete close-after-one-answer
trace. -/
theorem query_done_at_most_once_witness :
    (runQ (initQ 1 1) [QEvent.next true 0 false, QEvent.close]).pl.doneCalls
      ≤ 1 ∧
    1 ∉ (runQ (initQ 1 1)
      [QEvent.next true 0 false, QEvent.close]).pl.running := by
  have hth := query_done_at_most_once 1 1
    [QEvent.next true 0 false, QEvent.close] (by decide)
  exact ⟨hth.1, hth.2 (by decide)⟩

end TreallaSpec
